import Mathlib

set_option maxRecDepth 8000

/-!
Shallow embedding of src/fix_a11y_violations.py.

Python strings are modelled as lists of characters, Python string tests
and slicing as recursive functions on those lists.  The two core
routines of the script, the detector has_onclick_without_keyboard and
the rewriter fix_onclick_violations, are translated line for line; the
surrounding file and directory glue is modelled only as far as the
decision logic of process_file, which is pure in the file content.
-/

/-- Characters of a Python string. -/
abbrev Str := List Char

/-- Python s.startswith(pat) on character lists. -/
def startsWithS : Str → Str → Bool
  | _, [] => true
  | [], _ :: _ => false
  | c :: s, q :: qs => c == q && startsWithS s qs

/-- Python substring membership, pat in s. -/
def containsSub : Str → Str → Bool
  | [], pat => pat.isEmpty
  | c :: t, pat => startsWithS (c :: t) pat || containsSub t pat

/-- The suffix of s after the first occurrence of pat, Python
s.split(pat, 1)[1]; none when pat does not occur in s. -/
def afterFirst : Str → Str → Option Str
  | [], pat => if startsWithS [] pat then some [] else none
  | c :: t, pat =>
    if startsWithS (c :: t) pat then some ((c :: t).drop pat.length)
    else afterFirst t pat

/-- The Python regex whitespace class, restricted to the ASCII range
that the inputs of this program use. -/
def pySpace (c : Char) : Bool :=
  c == ' ' || c == '\t' || c == '\n' || c == '\r' || c == '\x0b' || c == '\x0c'

/-- Python str.strip(). -/
def pyStrip (s : Str) : Str :=
  ((s.dropWhile pySpace).reverse.dropWhile pySpace).reverse

/-- The Python regex word class, restricted to the ASCII range. -/
def isWordChar (c : Char) : Bool := c.isAlphanum || c == '_'

/-- The pattern pat followed by a regex word boundary matches at the
head of s.  All patterns used end in a word character, so the boundary
holds exactly when the next character is absent or not a word
character. -/
def wbHeadMatch : Str → Str → Bool
  | [], [] => true
  | c :: _, [] => !isWordChar c
  | [], _ :: _ => false
  | c :: s, q :: qs => c == q && wbHeadMatch s qs

/-- re.search of pat followed by a word boundary, as a Bool. -/
def searchWB : Str → Str → Bool
  | [], pat => wbHeadMatch [] pat
  | c :: t, pat => wbHeadMatch (c :: t) pat || searchWB t pat

/-- Python range(start, stop, -1) as a list, descending and excluding
stop. -/
def pyRangeDown (start stop : Nat) : List Nat :=
  (List.range' (stop + 1) (start - stop)).reverse

/-- Python range(a, b) as a list, ascending and excluding b. -/
def pyRangeUp (a b : Nat) : List Nat := List.range' a (b - a)

/-- Python content.split with the newline character as separator. -/
def splitLines : Str → List Str
  | [] => [[]]
  | c :: rest =>
    if c = '\n' then [] :: splitLines rest
    else
      match splitLines rest with
      | [] => [[c]]
      | l :: ls => (c :: l) :: ls

/-- Python newline.join(lines). -/
def joinLines : List Str → Str
  | [] => []
  | [l] => l
  | l :: l2 :: ls => l ++ '\n' :: joinLines (l2 :: ls)

/-! Literal markers matched by the script, from the source. -/

def onClickM : Str := "onClick=".data
def onKeyDownM : Str := "onKeyDown=".data
def onKeyPressM : Str := "onKeyPress=".data
def roleM : Str := "role=".data
def tabIndexM : Str := "tabIndex=".data
def buttonM : Str := "<button".data
def aSpaceM : Str := "<a ".data
def aCloseM : Str := "<a>".data
def aBareM : Str := "<a".data
def divM : Str := "<div".data
def spanM : Str := "<span".data
def liM : Str := "<li".data
def tdM : Str := "<td".data
def trM : Str := "<tr".data
def onClickBraceM : Str := "onClick=\x7b".data
def arrowM : Str := "=>".data

/-- Index list of the backward tag scan in both the detector and the
rewriter: Python range(i, max(0, i-10), -1).  With natural subtraction
the Python max(0, i-10) is written i - 10. -/
def backScanIdx (i : Nat) : List Nat := pyRangeDown i (i - 10)

/-- Index list of the keyboard and attribute windows:
Python range(max(0, i-5), min(len, i+5)). -/
def winIdx (len i : Nat) : List Nat := pyRangeUp (i - 5) (min len (i + 5))

/-- The value held by tag_start in the detector when the backward scan
hits a tag line. -/
inductive TagStart where
  | button_or_link
  | needs_fix
deriving DecidableEq

/-- The backward scan of the detector over a list of line indices:
lines with an interactive marker are checked first, then lines with one
of the five non-interactive markers of the detector; the first hit
stops the scan. -/
def detClassifyAux (lines : List Str) : List Nat → Option TagStart
  | [] => none
  | j :: rest =>
    if containsSub (lines.getD j []) buttonM || containsSub (lines.getD j []) aSpaceM
        || containsSub (lines.getD j []) aCloseM then
      some TagStart.button_or_link
    else if containsSub (lines.getD j []) divM || containsSub (lines.getD j []) spanM
        || containsSub (lines.getD j []) liM || containsSub (lines.getD j []) tdM
        || containsSub (lines.getD j []) trM then
      some TagStart.needs_fix
    else detClassifyAux lines rest

/-- The tag_start value computed by the detector for the click line at
index i. -/
def detClassify (lines : List Str) (i : Nat) : Option TagStart :=
  detClassifyAux lines (backScanIdx i)

/-- The has_keyboard flag of the detector: some line of the window
around i holds a keyboard marker. -/
def hasKeyboardNear (lines : List Str) (i : Nat) : Bool :=
  (winIdx lines.length i).any fun j =>
    containsSub (lines.getD j []) onKeyDownM || containsSub (lines.getD j []) onKeyPressM

/-- The detector has_onclick_without_keyboard of the script. -/
def has_onclick_without_keyboard (content : Str) : Bool :=
  let lines := splitLines content
  (List.range lines.length).any fun i =>
    containsSub (lines.getD i []) onClickM
      && decide (detClassify lines i = some TagStart.needs_fix)
      && !hasKeyboardNear lines i

/-- The thirteen substring alternatives of the non-interactive tag
regex of the rewriter. -/
def nonInteractiveTagM : List Str :=
  [divM, spanM, liM, tdM, trM, "<th".data, "<p".data, "<section".data,
    "<article".data, "<main".data, "<nav".data, "<header".data, "<footer".data]

/-- re.search of the non-interactive tag regex of the rewriter, which
has no word boundary: a plain substring disjunction. -/
def fixNonInteractiveHit (l : Str) : Bool := nonInteractiveTagM.any fun t => containsSub l t

/-- re.search of the interactive tag regex of the rewriter, which ends
in a word boundary. -/
def fixInteractiveHit (l : Str) : Bool := searchWB l buttonM || searchWB l aBareM

/-- The backward scan of the rewriter over a list of line indices:
the non-interactive regex is checked first, then the interactive one;
a non-interactive hit returns the leading whitespace of the hit line
(the tag_indent variable), an interactive hit aborts. -/
def fixClassifyAux (lines : List Str) : List Nat → Option Str
  | [] => none
  | j :: rest =>
    if fixNonInteractiveHit (lines.getD j []) then
      some ((lines.getD j []).takeWhile pySpace)
    else if fixInteractiveHit (lines.getD j []) then none
    else fixClassifyAux lines rest

/-- The is_non_interactive and tag_indent result of the backward scan
of the rewriter for the click line at index i. -/
def fixClassify (lines : List Str) (i : Nat) : Option Str :=
  fixClassifyAux lines (backScanIdx i)

/-- The onClick extraction regex of the rewriter.  The regex group is
greedy runs of non-brace characters, so re.search yields the characters
strictly between the first occurrence of the marker and the first
closing brace after it, and fails only when no closing brace follows
the marker on the line. -/
def extractOnClick (line : Str) : Option Str :=
  match afterFirst line onClickBraceM with
  | none => none
  | some rest =>
    let grabbed := rest.takeWhile fun c => !(c == '\x7d')
    if grabbed.length = rest.length then none else some grabbed

/-- The fixed head of the synthesized keyboard handler line, from the
f-string of the rewriter. -/
def kbPre : Str :=
  "onKeyDown=\x7b(e) => \x7b if (e.key === \x27Enter\x27 || e.key === \x27 \x27) \x7b e.preventDefault(); ".data

/-- The fixed tail of the synthesized keyboard handler line. -/
def kbPost : Str := " \x7d \x7d\x7d".data

/-- The synthesized role attribute line body. -/
def roleLit : Str := "role=\x22button\x22".data

/-- The synthesized tabIndex attribute line body. -/
def tabLit : Str := "tabIndex=\x7b0\x7d".data

/-- The func_call expression of the rewriter: the stripped suffix of
the handler after the first arrow token, or the handler itself when no
arrow occurs. -/
def kbFuncCall (handler : Str) : Str :=
  match afterFirst handler arrowM with
  | some t => pyStrip t
  | none => handler

/-- The keyboard_handler string synthesized by the rewriter for a
stripped handler expression. -/
def kbLine (handler : Str) : Str :=
  if startsWithS handler "()".data || startsWithS handler "(e)".data then
    kbPre ++ kbFuncCall handler ++ kbPost
  else
    kbPre ++ "(".data ++ handler ++ ")(e)".data ++ kbPost

/-- The has_role and has_tabindex window test of the rewriter. -/
def fixWindowHas (lines : List Str) (i : Nat) (pat : Str) : Bool :=
  (winIdx lines.length i).any fun j => containsSub (lines.getD j []) pat

/-- The lines the rewriter appends after the original line at index i.
The indent fallback of the source, tag_indent plus two spaces, is dead
code because re.match of an optional whitespace group always succeeds,
so indent_str is always the leading whitespace of the click line; the
tag indent returned by the scan is therefore unused here. -/
def fixExtras (lines : List Str) (i : Nat) : List Str :=
  let line := lines.getD i []
  if containsSub line onClickM && !containsSub line onKeyDownM then
    match fixClassify lines i with
    | none => []
    | some _tagIndent =>
      match extractOnClick line with
      | none => []
      | some raw =>
        let handler := pyStrip raw
        let hasRole := fixWindowHas lines i roleM
        let hasTab := fixWindowHas lines i tabIndexM
        let indentStr := line.takeWhile pySpace
        (indentStr ++ kbLine handler)
          :: ((if hasRole then [] else [indentStr ++ roleLit])
            ++ (if hasTab then [] else [indentStr ++ tabLit]))
  else []

/-- All lines the rewriter emits for index i: the loop appends the
original line in every branch, then the synthesized extras.  The loop
variable advances by exactly one in every branch, so the whole loop is
the concatenation of these groups. -/
def fixEmit (lines : List Str) (i : Nat) : List Str :=
  lines.getD i [] :: fixExtras lines i

/-- The rewriter fix_onclick_violations of the script. -/
def fix_onclick_violations (content : Str) : Str :=
  joinLines (((List.range (splitLines content).length).map
    (fixEmit (splitLines content))).flatten)

/-- The decision logic of process_file, pure in the file content: the
pair of the stored content after the call and whether a write happened.
The exception wrapper around the file system calls is not part of this
model. -/
def process_file (content : Str) : Str × Bool :=
  if has_onclick_without_keyboard content = false then (content, false)
  else if fix_onclick_violations content = content then (content, false)
  else (fix_onclick_violations content, true)

/-! Basic facts about the string and line primitives. -/

theorem containsSub_nil_pat (s : Str) : containsSub s [] = true := by
  cases s <;> simp [containsSub, startsWithS, List.isEmpty]

theorem startsWithS_nil_pat (s : Str) : startsWithS s [] = true := by
  cases s <;> rfl

theorem startsWithS_append (s t pat : Str) (h : startsWithS s pat = true) :
    startsWithS (s ++ t) pat = true := by
  induction pat generalizing s with
  | nil => exact startsWithS_nil_pat _
  | cons q qs ih =>
    cases s with
    | nil => simp [startsWithS] at h
    | cons c s' =>
      rw [List.cons_append]
      rw [startsWithS, Bool.and_eq_true] at h ⊢
      exact ⟨h.1, ih s' h.2⟩

theorem containsSub_append_left (s t pat : Str) (h : containsSub s pat = true) :
    containsSub (s ++ t) pat = true := by
  induction s with
  | nil =>
    have hp : pat = [] := by
      cases pat with
      | nil => rfl
      | cons q qs => simp [containsSub, List.isEmpty] at h
    subst hp
    exact containsSub_nil_pat _
  | cons c s' ih =>
    rw [List.cons_append, containsSub, Bool.or_eq_true]
    rw [containsSub, Bool.or_eq_true] at h
    rcases h with h | h
    · exact Or.inl (by rw [← List.cons_append]; exact startsWithS_append _ _ _ h)
    · exact Or.inr (ih h)

theorem containsSub_append_right (s t pat : Str) (h : containsSub t pat = true) :
    containsSub (s ++ t) pat = true := by
  induction s with
  | nil => exact h
  | cons c s' ih => rw [List.cons_append, containsSub, Bool.or_eq_true]; exact Or.inr ih

theorem splitLines_ne_nil (s : Str) : splitLines s ≠ [] := by
  cases s with
  | nil => simp [splitLines]
  | cons c rest =>
    rw [splitLines]
    split
    · simp
    · split <;> simp

theorem splitLines_struct (s : Str) (l : Str) (ls : List Str) (h : splitLines s = l :: ls) :
    (l = s ∧ ls = []) ∨ ∃ r, s = l ++ '\n' :: r ∧ ls = splitLines r := by
  induction s generalizing l ls with
  | nil =>
    rw [splitLines] at h
    rcases List.cons.injEq .. ▸ h with ⟨h1, h2⟩
    exact Or.inl ⟨h1.symm, h2.symm⟩
  | cons c rest ih =>
    by_cases hc : c = '\n'
    · subst hc
      rw [splitLines, if_pos rfl] at h
      rcases List.cons.injEq .. ▸ h with ⟨h1, h2⟩
      exact Or.inr ⟨rest, by rw [← h1]; rfl, h2.symm⟩
    · rw [splitLines, if_neg hc] at h
      cases hsp : splitLines rest with
      | nil => exact absurd hsp (splitLines_ne_nil rest)
      | cons l' ls' =>
        rw [hsp] at h
        rcases List.cons.injEq .. ▸ h with ⟨h1, h2⟩
        rcases ih l' ls' hsp with ⟨he, hl⟩ | ⟨r, hr, hls⟩
        · exact Or.inl ⟨by rw [← h1, he], by rw [← h2, hl]⟩
        · refine Or.inr ⟨r, ?_, by rw [← h2, hls]⟩
          rw [← h1, hr, List.cons_append]


theorem containsSub_of_mem_splitLines (s pat : Str) :
    ∀ line ∈ splitLines s, containsSub line pat = true → containsSub s pat = true := by
  induction s with
  | nil =>
    intro line hm h
    rw [splitLines, List.mem_singleton] at hm
    subst hm
    exact h
  | cons c rest ih =>
    intro line hm h
    by_cases hc : c = '\n'
    · subst hc
      rw [splitLines, if_pos rfl] at hm
      rcases List.mem_cons.1 hm with h0 | h1
      · subst h0
        have hp : pat = [] := by
          cases pat with
          | nil => rfl
          | cons q qs => simp [containsSub, List.isEmpty] at h
        subst hp
        exact containsSub_nil_pat _
      · rw [containsSub, Bool.or_eq_true]
        exact Or.inr (ih line h1 h)
    · rw [splitLines, if_neg hc] at hm
      cases hsp : splitLines rest with
      | nil => exact absurd hsp (splitLines_ne_nil rest)
      | cons l' ls' =>
        rw [hsp] at hm
        rcases List.mem_cons.1 hm with h0 | h1
        · subst h0
          rcases splitLines_struct rest l' ls' hsp with ⟨he, _⟩ | ⟨r, hr, _⟩
          · rw [← he]; exact h
          · rw [hr, ← List.cons_append]
            exact containsSub_append_left _ _ _ h
        · have hmem : line ∈ splitLines rest := by
            rw [hsp]; exact List.mem_cons_of_mem _ h1
          rw [containsSub, Bool.or_eq_true]
          exact Or.inr (ih line hmem h)

theorem joinLines_splitLines (s : Str) : joinLines (splitLines s) = s := by
  induction s with
  | nil => rfl
  | cons c rest ih =>
    by_cases hc : c = '\n'
    · subst hc
      rw [splitLines, if_pos rfl]
      cases hsp : splitLines rest with
      | nil => exact absurd hsp (splitLines_ne_nil rest)
      | cons l' ls' =>
        rw [hsp] at ih
        show '\n' :: joinLines (l' :: ls') = '\n' :: rest
        rw [ih]
    · rw [splitLines, if_neg hc]
      cases hsp : splitLines rest with
      | nil => exact absurd hsp (splitLines_ne_nil rest)
      | cons l' ls' =>
        rw [hsp] at ih
        cases ls' with
        | nil =>
          show (c :: l' : Str) = c :: rest
          rw [show joinLines [l'] = l' from rfl] at ih
          rw [ih]
        | cons l2 ls2 =>
          show (c :: l') ++ '\n' :: joinLines (l2 :: ls2) = c :: rest
          rw [List.cons_append, ← ih]
          rfl

theorem getD_mem_of_lt {α : Type _} (L : List α) (i : Nat) (d : α) (h : i < L.length) :
    L.getD i d ∈ L := by
  induction L generalizing i with
  | nil => exact absurd h (Nat.not_lt_zero i)
  | cons a t ih =>
    cases i with
    | zero => simp
    | succ n =>
      rw [List.getD_cons_succ]
      exact List.mem_cons_of_mem _ (ih n (Nat.lt_of_succ_lt_succ h))

theorem flatten_map_range_id (L : List Str) (f : Nat → List Str)
    (h : ∀ i, i < L.length → f i = [L.getD i []]) :
    ((List.range L.length).map f).flatten = L := by
  induction L generalizing f with
  | nil => rfl
  | cons a t ih =>
    rw [List.length_cons, List.range_succ_eq_map, List.map_cons, List.map_map,
      List.flatten_cons, h 0 (Nat.succ_pos _)]
    have htail : ((List.range t.length).map (f ∘ Nat.succ)).flatten = t := by
      apply ih
      intro i hi
      have := h (i + 1) (Nat.succ_lt_succ hi)
      rw [List.getD_cons_succ] at this
      exact this
    rw [htail]
    rfl

theorem sublist_flatten_map_range (L : List Str) (f : Nat → List Str)
    (h : ∀ i, i < L.length → ∃ t, f i = L.getD i [] :: t) :
    List.Sublist L ((List.range L.length).map f).flatten := by
  induction L generalizing f with
  | nil => simp
  | cons a tl ih =>
    rw [List.length_cons, List.range_succ_eq_map, List.map_cons, List.map_map,
      List.flatten_cons]
    obtain ⟨t0, ht0⟩ := h 0 (Nat.succ_pos _)
    rw [ht0, List.getD_cons_zero, List.cons_append]
    apply List.Sublist.cons₂
    have hsub : List.Sublist tl ((List.range tl.length).map (f ∘ Nat.succ)).flatten := by
      apply ih
      intro i hi
      obtain ⟨t, htt⟩ := h (i + 1) (Nat.succ_lt_succ hi)
      rw [List.getD_cons_succ] at htt
      exact ⟨t, htt⟩
    exact hsub.trans (List.sublist_append_right t0 _)

theorem not_newline_of_mem_splitLines (s : Str) :
    ∀ line ∈ splitLines s, '\n' ∉ line := by
  induction s with
  | nil =>
    intro line hm
    rw [splitLines, List.mem_singleton] at hm
    subst hm
    simp
  | cons c rest ih =>
    intro line hm
    by_cases hc : c = '\n'
    · subst hc
      rw [splitLines, if_pos rfl] at hm
      rcases List.mem_cons.1 hm with h0 | h1
      · subst h0; simp
      · exact ih line h1
    · rw [splitLines, if_neg hc] at hm
      cases hsp : splitLines rest with
      | nil => exact absurd hsp (splitLines_ne_nil rest)
      | cons l' ls' =>
        rw [hsp] at hm
        rcases List.mem_cons.1 hm with h0 | h1
        · subst h0
          intro hmem
          rcases List.mem_cons.1 hmem with he | hl
          · exact hc he.symm
          · exact ih l' (by rw [hsp]; exact List.mem_cons_self _ _) hl
        · exact ih line (by rw [hsp]; exact List.mem_cons_of_mem _ h1)

theorem splitLines_no_newline_id (a : Str) (h : '\n' ∉ a) : splitLines a = [a] := by
  induction a with
  | nil => rfl
  | cons c t ih =>
    have hc : c ≠ '\n' := fun he => h (he ▸ List.mem_cons_self _ _)
    rw [splitLines, if_neg hc, ih fun hm => h (List.mem_cons_of_mem _ hm)]

theorem splitLines_append_newline (a r : Str) (h : '\n' ∉ a) :
    splitLines (a ++ '\n' :: r) = a :: splitLines r := by
  induction a with
  | nil => rw [List.nil_append, splitLines, if_pos rfl]
  | cons c t ih =>
    have hc : c ≠ '\n' := fun he => h (he ▸ List.mem_cons_self _ _)
    rw [List.cons_append, splitLines, if_neg hc,
      ih fun hm => h (List.mem_cons_of_mem _ hm)]

theorem splitLines_joinLines (L : List Str) (hne : L ≠ [])
    (h : ∀ l ∈ L, '\n' ∉ l) : splitLines (joinLines L) = L := by
  induction L with
  | nil => exact absurd rfl hne
  | cons a t ih =>
    cases t with
    | nil => exact splitLines_no_newline_id a (h a (List.mem_cons_self _ _))
    | cons b t2 =>
      show splitLines (a ++ '\n' :: joinLines (b :: t2)) = a :: b :: t2
      rw [splitLines_append_newline a _ (h a (List.mem_cons_self _ _)),
        ih (by simp) fun l hl => h l (List.mem_cons_of_mem _ hl)]

/-! Characters of the synthesized lines all come from the click line or
from fixed literals, so a line holding no newline yields synthesized
lines holding no newline. -/

theorem mem_of_mem_takeWhile {p : Char → Bool} {l : Str} {c : Char}
    (h : c ∈ l.takeWhile p) : c ∈ l :=
  (List.takeWhile_sublist p).subset h

theorem mem_of_mem_dropWhile {p : Char → Bool} {l : Str} {c : Char}
    (h : c ∈ l.dropWhile p) : c ∈ l :=
  (List.dropWhile_sublist p).subset h

theorem mem_of_mem_dropN {l : Str} {n : Nat} {c : Char} (h : c ∈ l.drop n) : c ∈ l :=
  (List.drop_sublist n l).subset h

theorem mem_of_pyStrip {s : Str} {c : Char} (h : c ∈ pyStrip s) : c ∈ s := by
  unfold pyStrip at h
  rw [List.mem_reverse] at h
  have h2 := mem_of_mem_dropWhile h
  rw [List.mem_reverse] at h2
  exact mem_of_mem_dropWhile h2

theorem mem_of_afterFirst {s pat r : Str} (h : afterFirst s pat = some r) {c : Char}
    (hc : c ∈ r) : c ∈ s := by
  induction s with
  | nil =>
    rw [afterFirst] at h
    split at h
    · cases h; cases hc
    · cases h
  | cons a t ih =>
    rw [afterFirst] at h
    split at h
    · cases h; exact mem_of_mem_dropN hc
    · exact List.mem_cons_of_mem _ (ih h)

theorem mem_of_extractOnClick {line r : Str} (h : extractOnClick line = some r)
    {c : Char} (hc : c ∈ r) : c ∈ line := by
  cases haf : afterFirst line onClickBraceM with
  | none =>
    simp only [extractOnClick, haf] at h
    exact Option.noConfusion h
  | some rest =>
    simp only [extractOnClick, haf] at h
    split at h
    · cases h
    · cases h
      exact mem_of_afterFirst haf (mem_of_mem_takeWhile hc)

theorem mem_of_kbFuncCall {handler : Str} {c : Char} (h : c ∈ kbFuncCall handler) :
    c ∈ handler := by
  unfold kbFuncCall at h
  cases haf : afterFirst handler arrowM with
  | none => rw [haf] at h; exact h
  | some t =>
    rw [haf] at h
    exact mem_of_afterFirst haf (mem_of_pyStrip h)

theorem not_newline_kbLine {handler : Str} (h : '\n' ∉ handler) :
    '\n' ∉ kbLine handler := by
  unfold kbLine
  split
  · intro hm
    rcases List.mem_append.1 hm with hm | hm
    · rcases List.mem_append.1 hm with hm | hm
      · revert hm; decide
      · exact h (mem_of_kbFuncCall hm)
    · revert hm; decide
  · intro hm
    rcases List.mem_append.1 hm with hm | hm
    · rcases List.mem_append.1 hm with hm | hm
      · rcases List.mem_append.1 hm with hm | hm
        · rcases List.mem_append.1 hm with hm | hm
          · revert hm; decide
          · revert hm; decide
        · exact h hm
      · revert hm; decide
    · revert hm; decide

theorem not_newline_fixExtras (lines : List Str) (i : Nat)
    (hl : '\n' ∉ lines.getD i []) :
    ∀ l ∈ fixExtras lines i, '\n' ∉ l := by
  intro l hm
  simp only [fixExtras] at hm
  split at hm
  · cases hcl : fixClassify lines i with
    | none =>
      simp only [hcl] at hm
      exact absurd hm (List.not_mem_nil l)
    | some ti =>
      simp only [hcl] at hm
      cases hex : extractOnClick (lines.getD i []) with
      | none =>
        simp only [hex] at hm
        exact absurd hm (List.not_mem_nil l)
      | some raw =>
        simp only [hex] at hm
        have hind : '\n' ∉ (lines.getD i []).takeWhile pySpace :=
          fun hmem => hl (mem_of_mem_takeWhile hmem)
        have hhandler : '\n' ∉ pyStrip raw :=
          fun hmem => hl (mem_of_extractOnClick hex (mem_of_pyStrip hmem))
        rcases List.mem_cons.1 hm with h0 | h1
        · subst h0
          intro hmem
          rcases List.mem_append.1 hmem with hmem | hmem
          · exact hind hmem
          · exact not_newline_kbLine hhandler hmem
        · rcases List.mem_append.1 h1 with h2 | h2
          · split at h2
            · cases h2
            · rw [List.mem_singleton] at h2
              subst h2
              intro hmem
              rcases List.mem_append.1 hmem with hmem | hmem
              · exact hind hmem
              · revert hmem; decide
          · split at h2
            · cases h2
            · rw [List.mem_singleton] at h2
              subst h2
              intro hmem
              rcases List.mem_append.1 hmem with hmem | hmem
              · exact hind hmem
              · revert hmem; decide
  · cases hm

/-! The groups of lines the rewriter emits, recovered from its output
text. -/

theorem out_lines_flatten_ne_nil (content : Str) :
    ((List.range (splitLines content).length).map (fixEmit (splitLines content))).flatten
      ≠ [] := by
  cases hn : (splitLines content).length with
  | zero => exact absurd (List.length_eq_zero.1 hn) (splitLines_ne_nil content)
  | succ m =>
    rw [List.range_succ_eq_map, List.map_cons, List.flatten_cons]
    simp [fixEmit]

theorem splitLines_fix_eq_flatten (content : Str) :
    splitLines (fix_onclick_violations content)
      = ((List.range (splitLines content).length).map (fixEmit (splitLines content))).flatten := by
  unfold fix_onclick_violations
  apply splitLines_joinLines _ (out_lines_flatten_ne_nil content)
  intro l hl
  rcases List.mem_flatten.1 hl with ⟨grp, hgrp, hlg⟩
  rcases List.mem_map.1 hgrp with ⟨i, hir, rfl⟩
  have hi : i < (splitLines content).length := List.mem_range.1 hir
  have hline : '\n' ∉ (splitLines content).getD i [] :=
    not_newline_of_mem_splitLines content _ (getD_mem_of_lt _ i [] hi)
  rcases List.mem_cons.1 hlg with h0 | hex
  · subst h0; exact hline
  · exact not_newline_fixExtras _ i hline l hex

/-! Branches of the rewriter that copy the line unchanged. -/

theorem fixExtras_nil_of_no_onclick (lines : List Str) (i : Nat)
    (h : containsSub (lines.getD i []) onClickM = false) : fixExtras lines i = [] := by
  simp only [fixExtras, h, Bool.false_and, Bool.false_eq_true, if_false]

theorem fixExtras_nil_of_onkeydown (lines : List Str) (i : Nat)
    (h : containsSub (lines.getD i []) onKeyDownM = true) : fixExtras lines i = [] := by
  simp only [fixExtras, h, Bool.not_true, Bool.and_false, Bool.false_eq_true, if_false]

theorem fixExtras_nil_of_extract_none (lines : List Str) (i : Nat)
    (h : extractOnClick (lines.getD i []) = none) : fixExtras lines i = [] := by
  simp only [fixExtras]
  split
  · cases hcl : fixClassify lines i with
    | none => simp only [hcl]
    | some ti => simp only [hcl, h]
  · rfl

/-! Claimed properties. -/

/-- Claim C8: for every input text containing no occurrence of the
click-handler marker onClick=, the rewriter returns the input exactly. -/
theorem rewriter_id_of_no_onclick (content : Str)
    (h : containsSub content onClickM = false) :
    fix_onclick_violations content = content := by
  unfold fix_onclick_violations
  rw [flatten_map_range_id]
  · exact joinLines_splitLines content
  · intro i hi
    have hline : containsSub ((splitLines content).getD i []) onClickM = false := by
      cases hcl : containsSub ((splitLines content).getD i []) onClickM with
      | false => rfl
      | true =>
        have := containsSub_of_mem_splitLines content onClickM _
          (getD_mem_of_lt _ i [] hi) hcl
        rw [h] at this
        exact Bool.noConfusion this
    rw [fixEmit, fixExtras_nil_of_no_onclick _ _ hline]

/-- Witness for C8 at a concrete input without the click marker. -/
theorem rewriter_id_of_no_onclick_witness :
    fix_onclick_violations ("hello\nworld".data) = ("hello\nworld".data) :=
  rewriter_id_of_no_onclick _ (by decide)

/-- Claim C9: the output line sequence of the rewriter contains the
input line sequence, in order, as a sublist: the rewriter only inserts
synthesized lines and never deletes or alters an existing line. -/
theorem rewriter_lines_sublist (content : Str) :
    List.Sublist (splitLines content) (splitLines (fix_onclick_violations content)) := by
  rw [splitLines_fix_eq_flatten]
  exact sublist_flatten_map_range _ _ fun i _ => ⟨fixExtras (splitLines content) i, rfl⟩

/-- Claim C1 counterexample: the rewriter is not idempotent.  On this
input the first pass inserts the keyboard handler on a new line below
the click line, so a second pass rewrites the click line again and
inserts a duplicate keyboard handler line. -/
def idemInput : Str := "x\n<div\n  onClick=\x7b() => doThing()\x7d".data

/-- Claim C1 is false on the code: applying the rewriter twice differs
from applying it once on idemInput. -/
theorem rewriter_not_idempotent :
    fix_onclick_violations (fix_onclick_violations idemInput)
      ≠ fix_onclick_violations idemInput := by decide

/-- Claim C1 (amended): the skip condition of the rewriter looks for
the marker onKeyDown= on the click line itself, so whenever every line
containing onClick= also contains onKeyDown= on that same line the
rewriter returns the text unchanged.  Since the pass inserts the
keyboard marker on a new line rather than on the click line, this
premise does not hold for the output of a first pass, and idempotence
fails. -/
theorem rewriter_id_of_keyboard_on_click_lines (content : Str)
    (h : ∀ line ∈ splitLines content, containsSub line onClickM = true →
      containsSub line onKeyDownM = true) :
    fix_onclick_violations content = content := by
  unfold fix_onclick_violations
  rw [flatten_map_range_id]
  · exact joinLines_splitLines content
  · intro i hi
    cases hcl : containsSub ((splitLines content).getD i []) onClickM with
    | false => rw [fixEmit, fixExtras_nil_of_no_onclick _ _ hcl]
    | true =>
      have hkd := h _ (getD_mem_of_lt _ i [] hi) hcl
      rw [fixEmit, fixExtras_nil_of_onkeydown _ _ hkd]

/-- Witness for the amended C1 at a concrete already-safe input. -/
theorem rewriter_id_of_keyboard_on_click_lines_witness :
    fix_onclick_violations ("a\n<div onClick=\x7bf\x7d onKeyDown=\x7bg\x7d>".data)
      = ("a\n<div onClick=\x7bf\x7d onKeyDown=\x7bg\x7d>".data) :=
  rewriter_id_of_keyboard_on_click_lines _ (by decide)

/-- Claim C3 counterexample: a line carrying onClick= together with the
keyboard marker onKeyPress= but not onKeyDown= is still rewritten,
because the skip test of the rewriter only looks for onKeyDown=. -/
def keyPressInput : Str := "x\n<div onClick=\x7bf\x7d onKeyPress=\x7bg\x7d>".data

/-- Claim C3 is false on the code: the click line of keyPressInput has
a keyboard marker on the same line, yet the rewriter synthesizes new
lines for it. -/
theorem rewriter_rewrites_onkeypress_line :
    containsSub ((splitLines keyPressInput).getD 1 []) onClickM = true ∧
    containsSub ((splitLines keyPressInput).getD 1 []) onKeyPressM = true ∧
    fixEmit (splitLines keyPressInput) 1 ≠ [(splitLines keyPressInput).getD 1 []] := by
  refine ⟨by decide, by decide, ?_⟩
  decide

/-- Claim C3 (amended): for every line that contains onKeyDown= on that
same line, the rewriter copies the line unchanged and synthesizes no
new lines for it; the marker onKeyPress= does not trigger this skip. -/
theorem rewriter_copies_onkeydown_line (lines : List Str) (i : Nat)
    (h : containsSub (lines.getD i []) onKeyDownM = true) :
    fixEmit lines i = [lines.getD i []] := by
  rw [fixEmit, fixExtras_nil_of_onkeydown lines i h]

/-- Witness for the amended C3 at a concrete line index. -/
theorem rewriter_copies_onkeydown_line_witness :
    fixEmit (splitLines ("x\n<div onClick=\x7bf\x7d onKeyDown=\x7bg\x7d>".data)) 1
      = [(splitLines ("x\n<div onClick=\x7bf\x7d onKeyDown=\x7bg\x7d>".data)).getD 1 []] :=
  rewriter_copies_onkeydown_line _ 1 (by decide)

/-- Following the claim wording for C2: the backward classification
with the full thirteen-tag non-interactive marker list that the spec
names, in place of the five markers the detector actually checks.  To
be compared with detClassify. -/
def specDetClassifyAux13 (lines : List Str) : List Nat → Option TagStart
  | [] => none
  | j :: rest =>
    if containsSub (lines.getD j []) buttonM || containsSub (lines.getD j []) aSpaceM
        || containsSub (lines.getD j []) aCloseM then
      some TagStart.button_or_link
    else if fixNonInteractiveHit (lines.getD j []) then some TagStart.needs_fix
    else specDetClassifyAux13 lines rest

/-- The thirteen-tag classification over the backward scan window. -/
def specDetClassify13 (lines : List Str) (i : Nat) : Option TagStart :=
  specDetClassifyAux13 lines (backScanIdx i)

/-- Claim C2 counterexample input: a click handler inside a section
element, with no keyboard marker anywhere. -/
def sectionInput : Str := "x\n<section onClick=\x7bf\x7d>".data

/-- Claim C2 is false on the code: the backward scan with the claimed
thirteen-tag list classifies the click line of sectionInput as
needing a fix and no keyboard marker is in the window, yet the
detector returns false, because its own scan only checks the five
markers div, span, li, td, tr. -/
theorem detector_misses_section :
    containsSub ((splitLines sectionInput).getD 1 []) onClickM = true ∧
    specDetClassify13 (splitLines sectionInput) 1 = some TagStart.needs_fix ∧
    hasKeyboardNear (splitLines sectionInput) 1 = false ∧
    has_onclick_without_keyboard sectionInput = false := by decide

/-- Claim C2 (amended): with the non-interactive tag set restricted to
the five markers the detector scans for, div, span, li, td, tr, the
claim holds: whenever a line holds the click marker, the backward scan
classifies it as needing a fix, and no keyboard marker is in the
window, the detector returns true. -/
theorem detector_true_of_needs_fix (content : Str) (i : Nat)
    (h1 : i < (splitLines content).length)
    (h2 : containsSub ((splitLines content).getD i []) onClickM = true)
    (h3 : detClassify (splitLines content) i = some TagStart.needs_fix)
    (h4 : hasKeyboardNear (splitLines content) i = false) :
    has_onclick_without_keyboard content = true := by
  simp only [has_onclick_without_keyboard]
  rw [List.any_eq_true]
  refine ⟨i, List.mem_range.2 h1, ?_⟩
  rw [h2, h3, h4]
  decide

/-- Witness for the amended C2 at a concrete violating input. -/
theorem detector_true_of_needs_fix_witness :
    has_onclick_without_keyboard ("x\n<div onClick=\x7bf\x7d>".data) = true :=
  detector_true_of_needs_fix _ 1 (by decide) (by decide) (by decide) (by decide)

/-- Following the claim wording for C4: the backward scan index list
from i down to max(0, i-10) inclusive of the stop, to be compared with
backScanIdx. -/
def specBackScanIdxIncl (i : Nat) : List Nat :=
  (List.range' (i - 10) (i - (i - 10) + 1)).reverse

/-- The detector classification over the inclusive scan window of the
claim wording. -/
def specDetClassifyIncl (lines : List Str) (i : Nat) : Option TagStart :=
  detClassifyAux lines (specBackScanIdxIncl i)

/-- Claim C4 counterexample input: the tag-open line sits on line 0 and
the click marker on line 1. -/
def firstLineTagInput : Str := "<div\n  onClick=\x7bf\x7d>".data

/-- Claim C4 is false on the code: for i = 1 the claimed inclusive scan
reaches line 0 = max(0, i-10) and classifies the div, but the coded
scan, Python range(i, max(0, i-10), -1), excludes the stop, so neither
the detector nor the rewriter ever examines line 0; on this input both
scans find nothing, the detector returns false and the rewriter copies
the text unchanged. -/
theorem backward_scan_excludes_stop :
    0 ∈ specBackScanIdxIncl 1 ∧ 0 ∉ backScanIdx 1 ∧
    specDetClassifyIncl (splitLines firstLineTagInput) 1 = some TagStart.needs_fix ∧
    detClassify (splitLines firstLineTagInput) 1 = none ∧
    fixClassify (splitLines firstLineTagInput) 1 = none ∧
    has_onclick_without_keyboard firstLineTagInput = false ∧
    fix_onclick_violations firstLineTagInput = firstLineTagInput := by decide

/-- Claim C4 (amended): the backward scan of the detector and the
rewriter examines exactly the line indices j with
max(0, i-10) < j and j ≤ i: the Python range excludes its stop, so a
tag-open line exactly 10 lines above i is never examined, the first
line of the file is never examined, and for i = 0 no line at all is
examined. -/
theorem backScanIdx_mem_iff (i j : Nat) : j ∈ backScanIdx i ↔ i - 10 < j ∧ j ≤ i := by
  unfold backScanIdx pyRangeDown
  rw [List.mem_reverse, List.mem_range'_1]
  omega

/-- Claim C5: whenever every line holding the click marker is
classified button_or_link by the backward scan of the detector, the
detector returns false. -/
theorem detector_false_of_interactive (content : Str)
    (h : ∀ i, i < (splitLines content).length →
      containsSub ((splitLines content).getD i []) onClickM = true →
      detClassify (splitLines content) i = some TagStart.button_or_link) :
    has_onclick_without_keyboard content = false := by
  simp only [has_onclick_without_keyboard]
  rw [List.any_eq_false]
  intro i hi
  rw [List.mem_range] at hi
  cases hcl : containsSub ((splitLines content).getD i []) onClickM with
  | false => simp
  | true =>
    rw [h i hi hcl]
    simp

/-- Witness for C5 at a concrete input whose only click handler sits
on a button line. -/
theorem detector_false_of_interactive_witness :
    has_onclick_without_keyboard ("x\n<button onClick=\x7bf\x7d>".data) = false :=
  detector_false_of_interactive _ (by decide)

/-- Claim C6 counterexample input: the scenario line alone, as the
whole input.  The claim promises added keyboard, role and tabIndex
lines, but the backward scan of the rewriter at line index 0 examines
no line, so the text comes back unchanged. -/
def scenarioALine : Str := "<div onClick=\x7b() => doThing()\x7d>".data

/-- Claim C6 is false on the code when the scenario line is the first
line of the input: the rewriter returns the input unchanged and emits
no keyboard handler at all. -/
theorem scenarioA_first_line_unchanged :
    fix_onclick_violations scenarioALine = scenarioALine ∧
    containsSub (fix_onclick_violations scenarioALine) onKeyDownM = false := by decide

/-- Claim C6 (amended) input: the scenario line preceded by one other
line, so the backward scan can reach a tag-open line. -/
def scenarioAInput : Str := "x\n<div onClick=\x7b() => doThing()\x7d>".data

/-- The full expected output for the amended C6: the original lines,
then at the indentation of the click line (empty here) a keyboard
handler guarding Enter and Space, preventing default and calling
doThing(), then a button role line, then a zero tabIndex line. -/
def scenarioAExpected : Str :=
  ("x\n<div onClick=\x7b() => doThing()\x7d>\nonKeyDown=\x7b(e) => \x7b if (e.key === \x27Enter\x27 || e.key === \x27 \x27) \x7b e.preventDefault(); doThing() \x7d \x7d\x7d\nrole=\x22button\x22\ntabIndex=\x7b0\x7d").data

/-- Claim C6 (amended): when the scenario line is not the first line of
the file and no role or tabIndex attribute is in the window, the
rewriter keeps the line and appends the keyboard handler line, the
role line and the tabIndex line at the indentation of the click
line. -/
theorem scenarioA_output :
    fix_onclick_violations scenarioAInput = scenarioAExpected := by decide

/-- Claim C7 counterexample input: the braces of the onClick argument
nest two levels deep. -/
def nestedInput : Str := "x\n<div onClick=\x7b() => f(\x7ba: \x7bb\x7d\x7d)\x7d>".data

/-- Claim C7 is false on the code: with braces nested beyond one level
the extraction regex does not fail; it matches a truncated argument,
cut at the first closing brace, and the rewriter still synthesizes new
lines for the click line instead of copying it unchanged. -/
theorem nested_braces_still_rewritten :
    extractOnClick ((splitLines nestedInput).getD 1 [])
      = some (("() => f(\x7ba: \x7bb").data) ∧
    fixEmit (splitLines nestedInput) 1 ≠ [(splitLines nestedInput).getD 1 []] := by decide

/-- Claim C7 (amended): whenever the onClick argument extraction finds
no match, which happens exactly when no closing brace follows the
click marker on the line, the rewriter copies the line unchanged and
inserts no keyboard-handler, role or tabIndex line for it; deeper
brace nesting, however, does not make the extraction fail. -/
theorem rewriter_copies_line_without_extract (lines : List Str) (i : Nat)
    (h : extractOnClick (lines.getD i []) = none) :
    fixEmit lines i = [lines.getD i []] := by
  rw [fixEmit, fixExtras_nil_of_extract_none lines i h]

/-- Witness for the amended C7 at a click line with no closing brace. -/
theorem rewriter_copies_line_without_extract_witness :
    fixEmit (splitLines ("x\n<div onClick=\x7bf".data)) 1
      = [(splitLines ("x\n<div onClick=\x7bf".data)).getD 1 []] :=
  rewriter_copies_line_without_extract _ 1 (by decide)

/-- Claim C10: process_file leaves the stored content unchanged and
reports no write whenever the detector returns false on the content or
the rewrite returns text identical to it; by contraposition a write
happens only when the detector returned true and the rewritten text
differs, so content the detector misses is never rewritten even when
the rewriter would change it. -/
theorem process_file_frame (content : Str)
    (h : has_onclick_without_keyboard content = false ∨
      fix_onclick_violations content = content) :
    process_file content = (content, false) := by
  unfold process_file
  rcases h with h | h
  · rw [if_pos h]
  · by_cases hd : has_onclick_without_keyboard content = false
    · rw [if_pos hd]
    · rw [if_neg hd, if_pos h]

/-- Witness for C10 at a concrete content the detector rejects. -/
theorem process_file_frame_witness :
    process_file ("hello".data) = (("hello").data, false) :=
  process_file_frame _ (Or.inl (by decide))
